import Mathlib

/-!
Shallow embedding of the review-stream dashboard (`123.py`): the
`SlidingWindowAnalyzer` class and the `poll_kinesis` multi-shard consumer
loop.  Python dictionaries holding review data become a `Message` structure
whose optional keys are `Option` fields; the Kinesis client is a parameter
(`pull`), the TextBlob classifier is a parameter (`classify`), byte decoding
and JSON parsing are abstracted by their observable outcome (`Payload`);
wall-clock instants are integers.  `print` calls along the record-processing
path are modelled as appended `LogEntry` values.
-/

namespace ReviewStream

/-- Sentiment label string used by `get_sentiment_stats`. -/
def positive_label : String := "Positive"

/-- Sentiment label string used by `get_sentiment_stats`. -/
def negative_label : String := "Negative"

/-- Default sentiment label: `msg.get('sentiment', 'Neutral')`. -/
def neutral_label : String := "Neutral"

/-- The separator `' '.join` uses in `get_top_words`. -/
def space_str : String := " "

/-- The empty string (the default of `parsed.get("text", "")`). -/
def empty_text : String := ""

/-- A review dict.  `add_message` accepts any dict, so every key is
optional; fields the code reads with `.get` default exactly as the code
does.  The display-only formatted time string of `review_obj` is not
modelled. -/
structure Message where
  text : String := ""
  full_text : String := ""
  sentiment : Option String := none
  polarity : ℚ := 0
  word_count : Nat := 0
  actual_timestamp : Option Int := none
deriving DecidableEq

/-- `deque(maxlen=10000)` in `SlidingWindowAnalyzer.__init__`. -/
def default_capacity : Nat := 10000

/-- The suffix of length at most `n` of a list (what a `deque(maxlen=n)`
retains). -/
def keepLast (n : Nat) (l : List Message) : List Message :=
  l.drop (l.length - n)

/-- `SlidingWindowAnalyzer.add_message`: stamp the dict with the current
time and append to the `maxlen`-bounded deque (oldest evicted on
overflow). -/
def add_message (cap : Nat) (now : Int) (store : List Message) (msg : Message) :
    List Message :=
  let stamped := { msg with actual_timestamp := some now }
  let s := store ++ [stamped]
  if cap < s.length then s.drop (s.length - cap) else s

/-- Iterated `add_message` over a sequence of (dict, arrival time) pairs. -/
def ingest_list (cap : Nat) (store : List Message) :
    List (Message × Int) → List Message
  | [] => store
  | (m, t) :: rest => ingest_list cap (add_message cap t store m) rest

/-- Timestamp-stamping of a (dict, arrival time) sequence, as `add_message`
does record by record. -/
def stamp (l : List (Message × Int)) : List Message :=
  l.map (fun p => { p.1 with actual_timestamp := some p.2 })

/-- `SlidingWindowAnalyzer.get_messages_in_window`: all stored dicts whose
`actual_timestamp` (defaulting to `now`) is strictly later than
`now - minutes`. -/
def get_messages_in_window (now : Int) (minutes : Nat) (store : List Message) :
    List Message :=
  store.filter (fun msg => decide (now - (minutes : Int) < msg.actual_timestamp.getD now))

/-- The result record of `get_sentiment_stats`. -/
structure SentimentStats where
  positive : Nat
  negative : Nat
  neutral : Nat
  total : Nat
deriving DecidableEq

/-- `SlidingWindowAnalyzer.get_sentiment_stats`: `Counter` of the
`msg.get('sentiment', 'Neutral')` values, read back at the three fixed
labels, plus the window size. -/
def get_sentiment_stats (now : Int) (minutes : Nat) (store : List Message) :
    SentimentStats :=
  let w := get_messages_in_window now minutes store
  if w.isEmpty then ⟨0, 0, 0, 0⟩
  else
    let sentiments := w.map (fun m => m.sentiment.getD neutral_label)
    ⟨sentiments.count positive_label, sentiments.count negative_label,
      sentiments.count neutral_label, w.length⟩

/-- `SlidingWindowAnalyzer.get_message_rate`: window size divided by the
window length in minutes; `0.0` on an empty window or zero minutes. -/
def get_message_rate (now : Int) (minutes : Nat) (store : List Message) : ℚ :=
  let w := get_messages_in_window now minutes store
  if w.isEmpty ∨ minutes = 0 then 0
  else (w.length : ℚ) / (minutes : ℚ)

/-- A character the regex class `\w` matches (ASCII fragment): alphanumeric
or underscore. -/
def isWordChar (c : Char) : Bool := c.isAlphanum || c = '_'

/-- A character the regex class `\s` matches (ASCII fragment). -/
def isSpaceChar (c : Char) : Bool :=
  c = ' ' || c = '\t' || c = '\n' || c = '\r' || c = '\x0b' || c = '\x0c'

/-- One character of `re.sub(r'[^\w\s]', ' ', text)`: anything that is
neither a word character nor whitespace becomes a space. -/
def cleanChar (c : Char) : Char :=
  if isWordChar c || isSpaceChar c then c else ' '

/-- Helper of `splitWs`: accumulate the current word (reversed). -/
def splitWsAux : List Char → List Char → List (List Char)
  | [], acc => if acc.isEmpty then [] else [acc.reverse]
  | c :: cs, acc =>
    if isSpaceChar c then
      if acc.isEmpty then splitWsAux cs [] else acc.reverse :: splitWsAux cs []
    else splitWsAux cs (c :: acc)

/-- Python `str.split()` with no argument: split on whitespace runs,
discarding empty pieces. -/
def splitWs (l : List Char) : List (List Char) := splitWsAux l []

/-- Python `str.isdigit()` (ASCII fragment): non-empty and all digits. -/
def isDigitStr (s : String) : Bool := !s.isEmpty && s.toList.all Char.isDigit

/-- The stop-word set of `SlidingWindowAnalyzer._extract_words`. -/
def stop_words : List String :=
  ["the", "a", "an", "and", "or", "but", "in", "on", "at", "to", "for", "of",
   "with", "by", "is", "are", "was", "were", "be", "been", "have", "has", "had",
   "do", "does", "did", "will", "would", "could", "should", "this", "that",
   "these", "those", "i", "me", "my", "myself", "we", "our", "ours", "ourselves",
   "you", "your", "yours", "yourself", "yourselves", "he", "him", "his", "himself",
   "she", "her", "hers", "herself", "it", "its", "itself", "they", "them", "their",
   "theirs", "themselves", "what", "which", "who", "whom", "whose", "why", "how",
   "where", "when", "so", "than", "too", "very", "can", "just", "now", "also"]

/-- `SlidingWindowAnalyzer._extract_words`: lower-case, replace
non-word/non-space characters by spaces, split on whitespace, and drop
tokens of length at most 2, stop words, and purely numeric tokens. -/
def extract_words (text : String) : List String :=
  let cleaned := text.toLower.toList.map cleanChar
  let words := (splitWs cleaned).map (fun w => String.mk w)
  words.filter (fun w =>
    decide (2 < w.length) && !(stop_words.contains w) && !(isDigitStr w))

/-- Helper of `firstKeys`: keys in order of first occurrence, skipping the
already-seen ones. -/
def firstKeysAux : List String → List String → List String
  | [], _ => []
  | w :: ws, seen =>
    if seen.contains w then firstKeysAux ws seen
    else w :: firstKeysAux ws (w :: seen)

/-- The key sequence of `Counter(words)`: each distinct word once, in order
of its first occurrence (Python dicts preserve insertion order). -/
def firstKeys (ws : List String) : List String := firstKeysAux ws []

/-- `Counter(words)` as an ordered association list: keys in first-seen
order, each with its total occurrence count. -/
def counter (ws : List String) : List (String × Nat) :=
  (firstKeys ws).map (fun w => (w, ws.count w))

/-- Insert into a descending-by-count list, after every strictly greater
count (so earlier elements win ties, as Python's stable `sorted` does). -/
def insertByCount (x : String × Nat) : List (String × Nat) → List (String × Nat)
  | [] => [x]
  | y :: ys => if x.2 < y.2 then y :: insertByCount x ys else x :: y :: ys

/-- Stable descending sort by count, as
`sorted(items, key=count, reverse=True)`. -/
def sortByCountDesc : List (String × Nat) → List (String × Nat)
  | [] => []
  | x :: xs => insertByCount x (sortByCountDesc xs)

/-- `Counter.most_common(n)`: the first `n` entries of the stable
descending-by-count ordering of the counter. -/
def most_common (n : Nat) (ws : List String) : List (String × Nat) :=
  (sortByCountDesc (counter ws)).take n

/-- The index of the first occurrence of `w` in a word list (the length of
the list when absent). -/
def firstIndex (w : String) : List String → Nat
  | [] => 0
  | x :: xs => if x = w then 0 else firstIndex w xs + 1

/-- The tokenized concatenation of all `full_text` values in the window:
the word list `get_top_words` counts. -/
def window_words (now : Int) (minutes : Nat) (store : List Message) : List String :=
  extract_words (String.intercalate space_str
    ((get_messages_in_window now minutes store).map Message.full_text))

/-- `SlidingWindowAnalyzer.get_top_words`: join the window's texts with
spaces, tokenize, and return the `top_n` most common tokens. -/
def get_top_words (now : Int) (minutes : Nat) (top_n : Nat) (store : List Message) :
    List (String × Nat) :=
  let w := get_messages_in_window now minutes store
  if w.isEmpty then []
  else most_common top_n (extract_words (String.intercalate space_str
    (w.map Message.full_text)))

/-! ## The `poll_kinesis` consumer -/

/-- The observable outcome of decoding one Kinesis record's body: the JSON
failed to parse, or parsed to an object whose `text` field is absent or
holds the given string. -/
inductive Payload
  | malformed
  | obj (text : Option String)
deriving DecidableEq

/-- One `get_records` call: an exception, or a batch plus the optional
`NextShardIterator`. -/
inductive PullResult
  | err
  | ok (records : List Payload) (next : Option String)
deriving DecidableEq

/-- The `status_message` global (string contents with embedded counts and
times abstracted to their data). -/
inductive Status
  | startingUp
  | connected
  | active (total : Nat) (sentiment : String)
  | allShardsExhausted
deriving DecidableEq

/-- One `print` along the record-processing path of `poll_kinesis`. -/
inductive LogEntry
  | rawData
  | parsedJson
  | addedReview (total : Nat)
  | noTextField
  | jsonDecodeError
  | jsonRawDataWas
  | receivedRecords (shard : String) (n : Nat)
  | shardRemoved (shard : String)
  | fetchError (shard : String)
  | noNewRecords
  | stillWaiting
  | noMoreActiveShards
deriving DecidableEq

/-- The log entries that report a dropped record (the `no text field`
warning and the two JSON-decode-error prints). -/
def isDropLog : LogEntry → Bool
  | .noTextField => true
  | .jsonDecodeError => true
  | .jsonRawDataWas => true
  | _ => false

/-- The mutable state of `poll_kinesis` and the module globals it drives:
the shard-iterator dict (as an insertion-ordered association list), the
`reviews` list, the analyzer's deque, `total_reviews`, `status_message`,
the per-cycle `records_found` flag, `consecutive_empty_responses`, and the
emitted log.  Defaults are the module-level initial values. -/
structure ConsState where
  shard_iterators : List (String × String) := []
  reviews : List Message := []
  analyzer : List Message := []
  total_reviews : Nat := 0
  status_message : Status := .startingUp
  records_found : Bool := false
  consecutive_empty_responses : Nat := 0
  log : List LogEntry := []
deriving DecidableEq

/-- A record the consumer ingests: JSON parsed and the `text` field is a
non-empty string. -/
def isValidRecord : Payload → Bool
  | .obj (some t) => decide (t ≠ empty_text)
  | _ => false

/-- `len(review_text.split())`, the `word_count` field of `review_obj`. -/
def wordCountOf (s : String) : Nat := (splitWs s.toList).length

/-- The body of the per-record loop of `poll_kinesis` (lines 523-575):
print the raw data, parse, and either construct `review_obj`, append it to
`reviews`, ingest it into the analyzer and bump `total_reviews`, or log
the malformed-JSON / missing-`text` drop. -/
def process_record (classify : String → String × ℚ) (now : Int)
    (st : ConsState) (r : Payload) : ConsState :=
  let st := { st with log := st.log ++ [LogEntry.rawData] }
  match r with
  | .malformed => { st with log := st.log ++ [LogEntry.jsonDecodeError, LogEntry.jsonRawDataWas] }
  | .obj text =>
    let st := { st with log := st.log ++ [LogEntry.parsedJson] }
    let review_text := text.getD empty_text
    if review_text ≠ empty_text then
      let sp := classify review_text
      let review_obj : Message :=
        { text := review_text, full_text := review_text,
          sentiment := some sp.1, polarity := sp.2,
          word_count := wordCountOf review_text, actual_timestamp := none }
      { st with
        reviews := st.reviews ++ [review_obj],
        analyzer := add_message default_capacity now st.analyzer review_obj,
        total_reviews := st.total_reviews + 1,
        status_message := Status.active (st.total_reviews + 1) sp.1,
        log := st.log ++ [LogEntry.addedReview (st.total_reviews + 1)] }
    else { st with log := st.log ++ [LogEntry.noTextField] }

/-- The `for record in records` loop. -/
def process_records (classify : String → String × ℚ) (now : Int)
    (st : ConsState) (rs : List Payload) : ConsState :=
  rs.foldl (process_record classify now) st

/-- `del shard_iterators[shard_id]` (keys are distinct, as in the dict). -/
def eraseShard (sid : String) (its : List (String × String)) :
    List (String × String) :=
  its.filter (fun e => decide (e.1 ≠ sid))

/-- One iteration of `for shard_id, shard_iterator in list(items())`
(lines 500-579): skip a falsy iterator, pull, advance or delete the
iterator, then — only when a next iterator exists — process the batch;
a pull exception only logs. -/
def run_shard (pull : String → String → PullResult)
    (classify : String → String × ℚ) (now : Int)
    (st : ConsState) (entry : String × String) : ConsState :=
  if entry.2 = empty_text then st
  else
    match pull entry.1 entry.2 with
    | .err => { st with log := st.log ++ [LogEntry.fetchError entry.1] }
    | .ok records next =>
      match next with
      | none =>
        { st with shard_iterators := eraseShard entry.1 st.shard_iterators,
                  log := st.log ++ [LogEntry.shardRemoved entry.1] }
      | some c =>
        let st := { st with shard_iterators :=
          st.shard_iterators.map (fun e => if e.1 = entry.1 then (e.1, c) else e) }
        if records.isEmpty then st
        else
          let st := { st with records_found := true,
                              consecutive_empty_responses := 0,
                              log := st.log ++ [LogEntry.receivedRecords entry.1 records.length] }
          process_records classify now st records

/-- `max_empty_responses = 10`. -/
def max_empty_responses : Nat := 10

/-- One pass of the `while True` body over all shards (lines 495-588):
fold `run_shard` over a snapshot of the iterator dict, then do the
consecutive-empty bookkeeping. -/
def poll_cycle (pull : String → String → PullResult)
    (classify : String → String × ℚ) (now : Int) (st : ConsState) : ConsState :=
  let st1 := st.shard_iterators.foldl (run_shard pull classify now)
    { st with records_found := false }
  if st1.records_found then st1
  else
    let st2 := { st1 with
      consecutive_empty_responses := st1.consecutive_empty_responses + 1 }
    if st2.consecutive_empty_responses = 1 then
      { st2 with log := st2.log ++ [LogEntry.noNewRecords] }
    else if max_empty_responses ≤ st2.consecutive_empty_responses then
      { st2 with consecutive_empty_responses := 0, log := st2.log ++ [LogEntry.stillWaiting] }
    else st2

/-- The `while True` polling loop (fuel-bounded): after each cycle, if no
shard iterator remains, set the terminal status and stop.  `pull` and
`now` may vary per cycle (`i` is the cycle index). -/
def poll_loop (pull : Nat → String → String → PullResult)
    (classify : String → String × ℚ) (now : Nat → Int) :
    Nat → Nat → ConsState → ConsState
  | 0, _, st => st
  | fuel + 1, i, st =>
    let st1 := poll_cycle (pull i) classify (now i) st
    if st1.shard_iterators.isEmpty then
      { st1 with status_message := Status.allShardsExhausted,
                 log := st1.log ++ [LogEntry.noMoreActiveShards] }
    else poll_loop pull classify now fuel (i + 1) st1

/-! ## Lemmas about the bounded store -/

theorem keepLast_eq (n : Nat) (l : List Message) :
    keepLast n l = (l.reverse.take n).reverse := by
  rw [keepLast, List.take_reverse, List.reverse_reverse]

theorem keepLast_length_le (n : Nat) (l : List Message) :
    (keepLast n l).length ≤ n := by
  simp only [keepLast, List.length_drop]
  omega

theorem take_append_take (n : Nat) (a b : List Message) :
    (a ++ b.take n).take n = (a ++ b).take n := by
  rw [List.take_append_eq_append_take, List.take_append_eq_append_take,
    List.take_take, Nat.min_eq_left (Nat.sub_le _ _)]

theorem keepLast_append (cap : Nat) (xs ys : List Message) :
    keepLast cap (keepLast cap xs ++ ys) = keepLast cap (xs ++ ys) := by
  simp only [keepLast_eq, List.reverse_append, List.reverse_reverse]
  rw [take_append_take]

theorem add_message_eq_keepLast (cap : Nat) (now : Int) (store : List Message)
    (msg : Message) :
    add_message cap now store msg
      = keepLast cap (store ++ [{ msg with actual_timestamp := some now }]) := by
  simp only [add_message, keepLast]
  split
  · rfl
  · next h => rw [Nat.sub_eq_zero_of_le (Nat.le_of_not_lt h), List.drop_zero]

theorem ingest_list_eq_keepLast (cap : Nat) (l : List (Message × Int)) :
    ∀ store : List Message, store.length ≤ cap →
      ingest_list cap store l = keepLast cap (store ++ stamp l) := by
  induction l with
  | nil =>
    intro store h
    simp only [ingest_list, stamp, List.map_nil, List.append_nil, keepLast,
      Nat.sub_eq_zero_of_le h, List.drop_zero]
  | cons p rest ih =>
    intro store h
    obtain ⟨m, t⟩ := p
    have hlen : (add_message cap t store m).length ≤ cap := by
      rw [add_message_eq_keepLast]
      exact keepLast_length_le cap _
    rw [ingest_list, ih _ hlen, add_message_eq_keepLast, keepLast_append]
    simp [stamp, List.append_assoc]

/-- C3: over any sequence of `add_message` ingest operations the store never
exceeds the fixed capacity, and after inserting `cap + k` events the store
is exactly the most recent `cap` stamped events, oldest first to newest
last in index order (the length-`k`-dropped suffix of the stamped input
sequence). -/
theorem capacity_bound_and_exact_suffix (cap k : Nat) (l : List (Message × Int))
    (hlen : l.length = cap + k) :
    (∀ l' : List (Message × Int), (ingest_list cap [] l').length ≤ cap)
  ∧ ingest_list cap [] l = (stamp l).drop k := by
  constructor
  · intro l'
    rw [ingest_list_eq_keepLast cap l' [] (Nat.zero_le cap), List.nil_append]
    exact keepLast_length_le cap _
  · rw [ingest_list_eq_keepLast cap l [] (Nat.zero_le cap), List.nil_append]
    have hidx : (stamp l).length - cap = k := by
      simp only [stamp, List.length_map, hlen]
      omega
    rw [keepLast, hidx]

/-- C3 witness: ingesting three events into a store of capacity 2 keeps
exactly the last two, in order. -/
theorem capacity_bound_and_exact_suffix_witness :
    ingest_list 2 [] [({ text := "a" }, 1), ({ text := "b" }, 2), ({ text := "c" }, 3)]
      = (stamp [({ text := "a" }, 1), ({ text := "b" }, 2), ({ text := "c" }, 3)]).drop 1
  ∧ (ingest_list 2 []
      [({ text := "a" }, 1), ({ text := "b" }, 2), ({ text := "c" }, 3)]).length ≤ 2 :=
  ⟨(capacity_bound_and_exact_suffix 2 1
      [({ text := "a" }, 1), ({ text := "b" }, 2), ({ text := "c" }, 3)] rfl).2,
   (capacity_bound_and_exact_suffix 2 1
      [({ text := "a" }, 1), ({ text := "b" }, 2), ({ text := "c" }, 3)] rfl).1 _⟩

/-- C9: at a fixed instant and fixed store, the window for a shorter
duration is contained in the window for a longer one. -/
theorem window_monotone (now : Int) (store : List Message) (d1 d2 : Nat)
    (h : d1 < d2) :
    ∀ m ∈ get_messages_in_window now d1 store,
      m ∈ get_messages_in_window now d2 store := by
  intro m hm
  simp only [get_messages_in_window, List.mem_filter, decide_eq_true_eq] at hm ⊢
  obtain ⟨h1, h2⟩ := hm
  exact ⟨h1, by omega⟩

/-- C9 witness: a message 1 minute old lies in the 5-minute window, hence
also in the 7-minute window. -/
theorem window_monotone_witness :
    ({ actual_timestamp := some 9 } : Message)
      ∈ get_messages_in_window 10 7 [{ actual_timestamp := some 9 }] :=
  window_monotone 10 [{ actual_timestamp := some 9 }] 5 7 (by decide) _ (by decide)

/-- C8: the message rate is `|window| / minutes` for a positive duration
and a non-empty window, is 0 when the duration is 0 or the window is
empty, and in the dividing branch the divisor is non-zero. -/
theorem message_rate_spec (now : Int) (minutes : Nat) (store : List Message) :
    (minutes = 0 → get_message_rate now minutes store = 0)
  ∧ (get_messages_in_window now minutes store = [] →
      get_message_rate now minutes store = 0)
  ∧ (0 < minutes → get_messages_in_window now minutes store ≠ [] →
      get_message_rate now minutes store
        = ((get_messages_in_window now minutes store).length : ℚ) / (minutes : ℚ)
      ∧ (minutes : ℚ) ≠ 0) := by
  refine ⟨?_, ?_, ?_⟩
  · intro h
    simp [get_message_rate, h]
  · intro h
    simp [get_message_rate, h]
  · intro h1 h2
    have hne : minutes ≠ 0 := Nat.pos_iff_ne_zero.mp h1
    constructor
    · simp [get_message_rate, h2, hne]
    · exact Nat.cast_ne_zero.mpr hne

/-- C8 witness: one in-window message over 5 minutes gives rate 1/5; rate 0
for duration 0 and for an empty window. -/
theorem message_rate_spec_witness :
    get_message_rate 10 5 [{ actual_timestamp := some 9 }]
      = ((1 : ℚ) / (5 : ℚ))
  ∧ get_message_rate 10 0 [{ actual_timestamp := some 9 }] = 0
  ∧ get_message_rate 10 5 [] = 0 := by
  refine ⟨?_, ?_, ?_⟩
  · have h := (message_rate_spec 10 5 [{ actual_timestamp := some 9 }]).2.2
      (by decide) (by decide)
    rw [h.1]
    norm_num
    rfl
  · exact (message_rate_spec 10 0 [{ actual_timestamp := some 9 }]).1 rfl
  · exact (message_rate_spec 10 5 []).2.1 rfl

/-! ## Sentiment statistics -/

theorem count_map_eq_length_filter (f : Message → String) (a : String)
    (l : List Message) :
    (l.map f).count a = (l.filter (fun m => decide (f m = a))).length := by
  induction l with
  | nil => rfl
  | cons x xs ih =>
    by_cases h : f x = a
    · simp [List.count_cons, List.filter_cons, h, ih]
    · simp [List.count_cons, List.filter_cons, h, ih]

/-- C2 (amended): the stats' total is the window size; the `positive` and
`negative` fields count exactly the events carrying those labels; the
`neutral` field counts exactly the events whose label is missing or
`Neutral` — an event with an unrecognized label contributes to the total
but to none of the three keys. -/
theorem sentiment_stats_spec (now : Int) (minutes : Nat) (store : List Message) :
    (get_sentiment_stats now minutes store).total
      = (get_messages_in_window now minutes store).length
  ∧ (get_sentiment_stats now minutes store).positive
      = ((get_messages_in_window now minutes store).filter
          (fun m => decide (m.sentiment.getD neutral_label = positive_label))).length
  ∧ (get_sentiment_stats now minutes store).negative
      = ((get_messages_in_window now minutes store).filter
          (fun m => decide (m.sentiment.getD neutral_label = negative_label))).length
  ∧ (get_sentiment_stats now minutes store).neutral
      = ((get_messages_in_window now minutes store).filter
          (fun m => decide (m.sentiment.getD neutral_label = neutral_label))).length := by
  by_cases h : (get_messages_in_window now minutes store).isEmpty
  · have h' : get_messages_in_window now minutes store = [] :=
      List.isEmpty_iff.mp h
    rw [get_sentiment_stats]
    simp [h, h']
  · rw [get_sentiment_stats]
    simp [h, count_map_eq_length_filter]

/-- C2 counterexample: an in-window event whose sentiment label is the
unrecognized string `Confused` is counted in the total but not under
`neutral`, refuting that every unknown label is counted as Neutral. -/
theorem sentiment_stats_unknown_label_cex :
    (get_sentiment_stats 10 5
        [{ sentiment := some ("Confused"), actual_timestamp := some 9 }]).total = 1
  ∧ (get_sentiment_stats 10 5
        [{ sentiment := some ("Confused"), actual_timestamp := some 9 }]).neutral = 0
  ∧ ¬ ((get_sentiment_stats 10 5
        [{ sentiment := some ("Confused"), actual_timestamp := some 9 }]).neutral = 1) := by
  refine ⟨?_, ?_, ?_⟩ <;> decide

/-! ## Lemmas about the word counter and its stable descending sort -/

theorem mem_insertByCount {a x : String × Nat} {l : List (String × Nat)} :
    a ∈ insertByCount x l ↔ a = x ∨ a ∈ l := by
  induction l with
  | nil => simp [insertByCount]
  | cons y ys ih =>
    rw [insertByCount]
    split
    · simp only [List.mem_cons, ih]
      tauto
    · simp only [List.mem_cons]

theorem mem_sortByCountDesc {a : String × Nat} {l : List (String × Nat)} :
    a ∈ sortByCountDesc l ↔ a ∈ l := by
  induction l with
  | nil => simp [sortByCountDesc]
  | cons x xs ih =>
    rw [sortByCountDesc, mem_insertByCount]
    simp [ih]

theorem pairwise_insertByCount {x : String × Nat} {l : List (String × Nat)}
    (h : l.Pairwise (fun p q => q.2 ≤ p.2)) :
    (insertByCount x l).Pairwise (fun p q => q.2 ≤ p.2) := by
  induction l with
  | nil => simp [insertByCount]
  | cons y ys ih =>
    rw [List.pairwise_cons] at h
    obtain ⟨hy, hys⟩ := h
    rw [insertByCount]
    split
    · next hlt =>
      rw [List.pairwise_cons]
      refine ⟨?_, ih hys⟩
      intro a ha
      rcases mem_insertByCount.mp ha with rfl | ha
      · exact Nat.le_of_lt hlt
      · exact hy a ha
    · next hge =>
      rw [List.pairwise_cons]
      refine ⟨?_, List.pairwise_cons.mpr ⟨hy, hys⟩⟩
      intro a ha
      rcases List.mem_cons.mp ha with rfl | ha
      · exact Nat.le_of_not_lt hge
      · exact Nat.le_trans (hy a ha) (Nat.le_of_not_lt hge)

theorem sorted_sortByCountDesc (l : List (String × Nat)) :
    (sortByCountDesc l).Pairwise (fun p q => q.2 ≤ p.2) := by
  induction l with
  | nil => simp [sortByCountDesc]
  | cons x xs ih => exact pairwise_insertByCount ih

theorem pair_sublist_insertByCount {x a b : String × Nat} :
    ∀ {s : List (String × Nat)}, a.2 = b.2 → List.Sublist [a, b] (insertByCount x s) →
      List.Sublist [a, b] s ∨ (a = x ∧ b ∈ s) := by
  intro s
  induction s with
  | nil =>
    intro hab h
    rw [insertByCount] at h
    exact absurd h.length_le (by simp)
  | cons y ys ih =>
    intro hab h
    rw [insertByCount] at h
    split at h
    · next hlt =>
      cases h with
      | cons _ h2 =>
        rcases ih hab h2 with h3 | ⟨rfl, hb⟩
        · exact Or.inl (h3.cons y)
        · exact Or.inr ⟨rfl, List.mem_cons_of_mem y hb⟩
      | cons₂ _ h2 =>
        have hb := List.singleton_sublist.mp h2
        rcases mem_insertByCount.mp hb with rfl | hb2
        · omega
        · exact Or.inl ((List.singleton_sublist.mpr hb2).cons₂ a)
    · next hge =>
      cases h with
      | cons _ h2 => exact Or.inl h2
      | cons₂ _ h2 => exact Or.inr ⟨rfl, List.singleton_sublist.mp h2⟩

theorem stable_sortByCountDesc {a b : String × Nat} :
    ∀ {l : List (String × Nat)}, a.2 = b.2 → List.Sublist [a, b] (sortByCountDesc l) →
      List.Sublist [a, b] l := by
  intro l
  induction l with
  | nil =>
    intro hab h
    simp only [sortByCountDesc] at h
    exact h
  | cons x xs ih =>
    intro hab h
    rw [sortByCountDesc] at h
    rcases pair_sublist_insertByCount hab h with h2 | ⟨rfl, hb⟩
    · exact (ih hab h2).cons x
    · exact (List.singleton_sublist.mpr (mem_sortByCountDesc.mp hb)).cons₂ a

theorem mem_firstKeysAux :
    ∀ {l seen : List String} {a : String},
      a ∈ firstKeysAux l seen → a ∈ l ∧ seen.contains a = false := by
  intro l
  induction l with
  | nil =>
    intro seen a h
    simp [firstKeysAux] at h
  | cons w ws ih =>
    intro seen a h
    rw [firstKeysAux] at h
    split at h
    · obtain ⟨h1, h2⟩ := ih h
      exact ⟨List.mem_cons_of_mem w h1, h2⟩
    · next hw =>
      rcases List.mem_cons.mp h with rfl | h2
      · exact ⟨List.mem_cons_self a ws, by simpa using hw⟩
      · obtain ⟨h3, h4⟩ := ih h2
        refine ⟨List.mem_cons_of_mem w h3, ?_⟩
        simp only [List.contains_cons, Bool.or_eq_false_iff] at h4
        exact h4.2

theorem firstIndex_lt_of_pair_sublist :
    ∀ {l seen : List String} {u v : String},
      List.Sublist [u, v] (firstKeysAux l seen) → firstIndex u l < firstIndex v l := by
  intro l
  induction l with
  | nil =>
    intro seen u v h
    rw [firstKeysAux] at h
    exact absurd h.length_le (by simp)
  | cons w ws ih =>
    intro seen u v h
    rw [firstKeysAux] at h
    split at h
    · next hw =>
      have hu := mem_firstKeysAux
        (List.Sublist.mem (show u ∈ [u, v] by simp) h)
      have hv := mem_firstKeysAux
        (List.Sublist.mem (show v ∈ [u, v] by simp) h)
      have hwu : w ≠ u := by
        intro e
        rw [e] at hw
        rw [hu.2] at hw
        exact Bool.false_ne_true hw
      have hwv : w ≠ v := by
        intro e
        rw [e] at hw
        rw [hv.2] at hw
        exact Bool.false_ne_true hw
      rw [firstIndex, firstIndex, if_neg hwu, if_neg hwv]
      exact Nat.succ_lt_succ (ih h)
    · next hw =>
      cases h with
      | cons _ h2 =>
        have hu := mem_firstKeysAux
          (List.Sublist.mem (show u ∈ [u, v] by simp) h2)
        have hv := mem_firstKeysAux
          (List.Sublist.mem (show v ∈ [u, v] by simp) h2)
        have hwu : w ≠ u := by
          intro e
          have := hu.2
          simp [List.contains_cons, e] at this
        have hwv : w ≠ v := by
          intro e
          have := hv.2
          simp [List.contains_cons, e] at this
        rw [firstIndex, firstIndex, if_neg hwu, if_neg hwv]
        exact Nat.succ_lt_succ (ih h2)
      | cons₂ _ h2 =>
        have hv := mem_firstKeysAux (List.singleton_sublist.mp h2)
        have hwv : w ≠ v := by
          intro e
          have := hv.2
          simp [List.contains_cons, e] at this
        rw [firstIndex, firstIndex, if_pos rfl, if_neg hwv]
        exact Nat.succ_pos _

theorem counter_map_fst (ws : List String) :
    (counter ws).map Prod.fst = firstKeys ws := by
  simp [counter, List.map_map, Function.comp_def]

theorem mem_counter {p : String × Nat} {ws : List String} (h : p ∈ counter ws) :
    p.1 ∈ ws ∧ p.2 = ws.count p.1 := by
  simp only [counter, List.mem_map] at h
  rcases h with ⟨w, hw, rfl⟩
  exact ⟨(mem_firstKeysAux hw).1, rfl⟩

theorem extract_words_facts {w t : String} (h : w ∈ extract_words t) :
    2 < w.length ∧ stop_words.contains w = false ∧ isDigitStr w = false := by
  rw [extract_words] at h
  simp only [List.mem_filter, Bool.and_eq_true, Bool.not_eq_true',
    decide_eq_true_eq] at h
  exact ⟨h.2.1.1, h.2.1.2, h.2.2⟩

/-- C4: `get_top_words` returns at most `top_n` pairs; every returned pair
has a count that is at least 1 and equal to the token's frequency in the
tokenized concatenation of the window's texts, and its token is longer
than 2 characters, is no stop word, and is not purely numeric; the result
is sorted by descending count; it is empty on an empty window; and two
returned pairs with equal counts appear in the order of their tokens'
first occurrence in the concatenated text. -/
theorem top_words_spec (now : Int) (minutes : Nat) (top_n : Nat)
    (store : List Message) :
    (get_top_words now minutes top_n store).length ≤ top_n
  ∧ (∀ p ∈ get_top_words now minutes top_n store,
        1 ≤ p.2
      ∧ p.2 = (window_words now minutes store).count p.1
      ∧ 2 < p.1.length
      ∧ stop_words.contains p.1 = false
      ∧ isDigitStr p.1 = false)
  ∧ (get_top_words now minutes top_n store).Pairwise (fun p q => q.2 ≤ p.2)
  ∧ (get_messages_in_window now minutes store = [] →
      get_top_words now minutes top_n store = [])
  ∧ (∀ a b : String × Nat,
      List.Sublist [a, b] (get_top_words now minutes top_n store) → a.2 = b.2 →
      firstIndex a.1 (window_words now minutes store)
        < firstIndex b.1 (window_words now minutes store)) := by
  by_cases h : (get_messages_in_window now minutes store).isEmpty
  · have h' : get_messages_in_window now minutes store = [] :=
      List.isEmpty_iff.mp h
    refine ⟨?_, ?_, ?_, ?_, ?_⟩ <;> simp [get_top_words, h']
  · have hb : (get_messages_in_window now minutes store).isEmpty = false := by
      simpa using h
    have hgtw : get_top_words now minutes top_n store
        = most_common top_n (window_words now minutes store) := by
      rw [get_top_words, window_words]
      simp only [hb, Bool.false_eq_true, if_false]
    have hmem : ∀ p ∈ get_top_words now minutes top_n store,
        p ∈ counter (window_words now minutes store) := by
      intro p hp
      rw [hgtw, most_common] at hp
      exact mem_sortByCountDesc.mp
        (List.Sublist.mem hp (List.take_sublist _ _))
    refine ⟨?_, ?_, ?_, ?_, ?_⟩
    · rw [hgtw, most_common]
      exact List.length_take_le _ _
    · intro p hp
      obtain ⟨h1, h2⟩ := mem_counter (hmem p hp)
      have hfacts := extract_words_facts (show p.1 ∈ extract_words
        (String.intercalate space_str
          ((get_messages_in_window now minutes store).map Message.full_text))
        from h1)
      refine ⟨?_, h2, hfacts.1, hfacts.2.1, hfacts.2.2⟩
      rw [h2]
      exact List.count_pos_iff.mpr h1
    · rw [hgtw, most_common]
      exact List.Pairwise.sublist (List.take_sublist _ _)
        (sorted_sortByCountDesc _)
    · intro he
      rw [he] at hb
      simp at hb
    · intro a b hab h2
      rw [hgtw, most_common] at hab
      have h3 : List.Sublist [a, b] (counter (window_words now minutes store)) :=
        stable_sortByCountDesc h2 (hab.trans (List.take_sublist _ _))
      have h4 := h3.map Prod.fst
      rw [counter_map_fst] at h4
      simp only [List.map_cons, List.map_nil] at h4
      exact firstIndex_lt_of_pair_sublist h4

/-! ## Lemmas about the consumer -/

theorem process_records_cons (classify : String → String × ℚ) (now : Int)
    (st : ConsState) (r : Payload) (rs : List Payload) :
    process_records classify now st (r :: rs)
      = process_records classify now (process_record classify now st r) rs := rfl

theorem process_record_shard_iterators (classify : String → String × ℚ)
    (now : Int) (st : ConsState) (r : Payload) :
    (process_record classify now st r).shard_iterators = st.shard_iterators := by
  cases r with
  | malformed => rfl
  | obj text =>
    simp only [process_record]
    split <;> rfl

theorem process_records_shard_iterators (classify : String → String × ℚ)
    (now : Int) :
    ∀ (rs : List Payload) (st : ConsState),
      (process_records classify now st rs).shard_iterators = st.shard_iterators := by
  intro rs
  induction rs with
  | nil => intro st; rfl
  | cons r rs ih =>
    intro st
    rw [process_records_cons, ih, process_record_shard_iterators]

theorem process_record_total (classify : String → String × ℚ) (now : Int)
    (st : ConsState) (r : Payload) :
    (process_record classify now st r).total_reviews
      = st.total_reviews + (if isValidRecord r then 1 else 0) := by
  cases r with
  | malformed => rfl
  | obj text =>
    cases text with
    | none => rfl
    | some t =>
      simp only [process_record, isValidRecord, Option.getD_some]
      by_cases h : t = empty_text
      · simp [h]
      · simp [h]

theorem process_records_total (classify : String → String × ℚ) (now : Int) :
    ∀ (rs : List Payload) (st : ConsState),
      (process_records classify now st rs).total_reviews
        = st.total_reviews + (rs.filter isValidRecord).length := by
  intro rs
  induction rs with
  | nil => intro st; simp [process_records]
  | cons r rs ih =>
    intro st
    rw [process_records_cons, ih, process_record_total, List.filter_cons]
    cases hv : isValidRecord r
    · simp only [hv, Bool.false_eq_true, if_false]
      omega
    · simp only [hv, if_true, List.length_cons]
      omega

theorem run_shard_err (pull : String → String → PullResult)
    (classify : String → String × ℚ) (now : Int) (st : ConsState)
    (sid c : String) (hc : c ≠ empty_text) (hp : pull sid c = PullResult.err) :
    run_shard pull classify now st (sid, c)
      = { st with log := st.log ++ [LogEntry.fetchError sid] } := by
  simp [run_shard, hp, hc]

theorem run_shard_exhaust (pull : String → String → PullResult)
    (classify : String → String × ℚ) (now : Int) (st : ConsState)
    (sid c : String) (recs : List Payload)
    (hc : c ≠ empty_text) (hp : pull sid c = PullResult.ok recs none) :
    run_shard pull classify now st (sid, c)
      = { st with shard_iterators := eraseShard sid st.shard_iterators,
                  log := st.log ++ [LogEntry.shardRemoved sid] } := by
  simp [run_shard, hp, hc]

theorem run_shard_advance (pull : String → String → PullResult)
    (classify : String → String × ℚ) (now : Int) (st : ConsState)
    (sid c : String) (recs : List Payload) (c2 : String)
    (hc : c ≠ empty_text) (hp : pull sid c = PullResult.ok recs (some c2))
    (hne : recs ≠ []) :
    run_shard pull classify now st (sid, c)
      = process_records classify now
          { st with
            shard_iterators :=
              st.shard_iterators.map (fun e => if e.1 = sid then (e.1, c2) else e),
            records_found := true,
            consecutive_empty_responses := 0,
            log := st.log ++ [LogEntry.receivedRecords sid recs.length] } recs := by
  simp [run_shard, hp, hc, List.isEmpty_iff, hne]

theorem run_shard_advance_empty (pull : String → String → PullResult)
    (classify : String → String × ℚ) (now : Int) (st : ConsState)
    (sid c c2 : String)
    (hc : c ≠ empty_text) (hp : pull sid c = PullResult.ok [] (some c2)) :
    run_shard pull classify now st (sid, c)
      = { st with shard_iterators :=
            st.shard_iterators.map (fun e => if e.1 = sid then (e.1, c2) else e) } := by
  simp [run_shard, hp, hc]

theorem map_update_keys (its : List (String × String)) (p c2 : String) :
    (its.map (fun e => if e.1 = p then (e.1, c2) else e)).map Prod.fst
      = its.map Prod.fst := by
  induction its with
  | nil => rfl
  | cons e es ih =>
    simp only [List.map_cons, ih]
    congr 1
    split <;> rfl

theorem eraseShard_not_mem (sid : String) (its : List (String × String)) :
    sid ∉ (eraseShard sid its).map Prod.fst := by
  intro h
  simp only [eraseShard, List.mem_map] at h
  rcases h with ⟨e, he, heq⟩
  rw [List.mem_filter] at he
  exact absurd heq (by simpa using he.2)

theorem run_shard_keys_mono (pull : String → String → PullResult)
    (classify : String → String × ℚ) (now : Int) (st : ConsState)
    (e : String × String) (sid : String)
    (h : sid ∉ st.shard_iterators.map Prod.fst) :
    sid ∉ (run_shard pull classify now st e).shard_iterators.map Prod.fst := by
  obtain ⟨p, c⟩ := e
  by_cases hc : c = empty_text
  · simpa [run_shard, hc] using h
  · rcases hpc : pull p c with _ | ⟨recs, next⟩
    · simpa [run_shard, hpc, hc] using h
    · cases next with
      | none =>
        rw [run_shard_exhaust pull classify now st p c recs hc hpc]
        intro hmem
        simp only [eraseShard, List.mem_map] at hmem
        rcases hmem with ⟨e2, he2, heq⟩
        rw [List.mem_filter] at he2
        exact h (List.mem_map.mpr ⟨e2, he2.1, heq⟩)
      | some c2 =>
        by_cases hre : recs = []
        · subst hre
          rw [run_shard_advance_empty pull classify now st p c c2 hc hpc]
          dsimp only
          rw [map_update_keys]
          exact h
        · rw [run_shard_advance pull classify now st p c recs c2 hc hpc hre,
            process_records_shard_iterators]
          dsimp only
          rw [map_update_keys]
          exact h

theorem foldl_run_shard_keys_mono (pull : String → String → PullResult)
    (classify : String → String × ℚ) (now : Int) (sid : String) :
    ∀ (snapshot : List (String × String)) (st : ConsState),
      sid ∉ st.shard_iterators.map Prod.fst →
      sid ∉ (snapshot.foldl (run_shard pull classify now) st).shard_iterators.map
        Prod.fst := by
  intro snapshot
  induction snapshot with
  | nil => intro st h; exact h
  | cons e es ih =>
    intro st h
    rw [List.foldl_cons]
    exact ih _ (run_shard_keys_mono pull classify now st e sid h)

theorem poll_cycle_shard_iterators (pull : String → String → PullResult)
    (classify : String → String × ℚ) (now : Int) (st : ConsState) :
    (poll_cycle pull classify now st).shard_iterators
      = (st.shard_iterators.foldl (run_shard pull classify now)
          { st with records_found := false }).shard_iterators := by
  simp only [poll_cycle]
  split
  · rfl
  · split
    · rfl
    · split <;> rfl

theorem poll_cycle_keys_mono (pull : String → String → PullResult)
    (classify : String → String × ℚ) (now : Int) (st : ConsState) (sid : String)
    (h : sid ∉ st.shard_iterators.map Prod.fst) :
    sid ∉ (poll_cycle pull classify now st).shard_iterators.map Prod.fst := by
  rw [poll_cycle_shard_iterators]
  exact foldl_run_shard_keys_mono pull classify now sid st.shard_iterators _ h

theorem poll_loop_keys_mono (pull : Nat → String → String → PullResult)
    (classify : String → String × ℚ) (now : Nat → Int) (sid : String) :
    ∀ (fuel i : Nat) (st : ConsState),
      sid ∉ st.shard_iterators.map Prod.fst →
      sid ∉ (poll_loop pull classify now fuel i st).shard_iterators.map Prod.fst := by
  intro fuel
  induction fuel with
  | zero => intro i st h; exact h
  | succ fuel ih =>
    intro i st h
    rw [poll_loop]
    split
    · exact poll_cycle_keys_mono (pull i) classify (now i) st sid h
    · exact ih _ _ (poll_cycle_keys_mono (pull i) classify (now i) st sid h)

theorem process_record_records_found (classify : String → String × ℚ)
    (now : Int) (st : ConsState) (r : Payload) :
    (process_record classify now st r).records_found = st.records_found := by
  cases r with
  | malformed => rfl
  | obj text =>
    simp only [process_record]
    split <;> rfl

theorem process_records_records_found (classify : String → String × ℚ)
    (now : Int) :
    ∀ (rs : List Payload) (st : ConsState),
      (process_records classify now st rs).records_found = st.records_found := by
  intro rs
  induction rs with
  | nil => intro st; rfl
  | cons r rs ih =>
    intro st
    rw [process_records_cons, ih, process_record_records_found]

/-! ## The claims about `poll_kinesis` -/

/-- C5: when a pull for a shard returns its batch together with no next
iterator, that shard is deleted from the iterator dict during that very
cycle; a shard absent from the dict never reappears through any number of
further cycles (so it is never polled again); and as soon as a cycle
leaves the dict empty, the loop stops immediately with the terminal
`All shards exhausted` status. -/
theorem exhausted_shard_removed_then_terminal
    (pull : String → String → PullResult) (classify : String → String × ℚ)
    (now : Int) (st : ConsState) (sid c : String)
    (xs ys : List (String × String)) (recs : List Payload)
    (hsnap : st.shard_iterators = xs ++ (sid, c) :: ys)
    (hc : c ≠ empty_text)
    (hpull : pull sid c = PullResult.ok recs none) :
    sid ∉ (poll_cycle pull classify now st).shard_iterators.map Prod.fst
  ∧ (∀ (pulls : Nat → String → String → PullResult) (nows : Nat → Int)
       (fuel i : Nat) (st' : ConsState),
       sid ∉ st'.shard_iterators.map Prod.fst →
       sid ∉ (poll_loop pulls classify nows fuel i st').shard_iterators.map Prod.fst)
  ∧ (∀ (pulls : Nat → String → String → PullResult) (nows : Nat → Int)
       (fuel i : Nat) (st' : ConsState),
       (poll_cycle (pulls i) classify (nows i) st').shard_iterators = [] →
       poll_loop pulls classify nows (fuel + 1) i st'
         = { poll_cycle (pulls i) classify (nows i) st' with
             status_message := Status.allShardsExhausted,
             log := (poll_cycle (pulls i) classify (nows i) st').log
               ++ [LogEntry.noMoreActiveShards] }) := by
  refine ⟨?_, ?_, ?_⟩
  · rw [poll_cycle_shard_iterators, hsnap, List.foldl_append, List.foldl_cons]
    apply foldl_run_shard_keys_mono
    rw [run_shard_exhaust pull classify now _ sid c recs hc hpull]
    dsimp only
    exact eraseShard_not_mem sid _
  · intro pulls nows fuel i st' h
    exact poll_loop_keys_mono pulls classify nows sid fuel i st' h
  · intro pulls nows fuel i st' h
    simp only [poll_loop, h, List.isEmpty_nil, if_true]

/-- C5 witness: a single shard whose pull answers with no next iterator
leaves the dict without that shard after one cycle. -/
theorem exhausted_shard_removed_then_terminal_witness :
    ("shard-0") ∉ ((poll_cycle (fun _ _ => PullResult.ok [] none)
        (fun t => (t, 0)) 0
        { shard_iterators := [(("shard-0"), ("it-0"))] }).shard_iterators.map
        Prod.fst) :=
  (exhausted_shard_removed_then_terminal (fun _ _ => PullResult.ok [] none)
    (fun t => (t, 0)) 0 { shard_iterators := [(("shard-0"), ("it-0"))] }
    ("shard-0") ("it-0") [] [] [] rfl (by decide) rfl).1

/-- C6: a transient pull error leaves the consumer state unchanged apart
from a log entry — the shard's iterator is not advanced and the shard
stays in the dict, so the same cursor is retried next cycle; in the same
cycle another shard is still polled, its record ingested and its cursor
advanced; and a cycle never stops the loop while iterators remain. -/
theorem transient_error_retries_same_cursor
    (pull : String → String → PullResult) (classify : String → String × ℚ)
    (now : Int) (st : ConsState) (p q cp cq c2 : String) (r : Payload)
    (hpq : p ≠ q) (hcp : cp ≠ empty_text) (hcq : cq ≠ empty_text)
    (hp : pull p cp = PullResult.err)
    (hq : pull q cq = PullResult.ok [r] (some c2))
    (hr : isValidRecord r = true)
    (hiter : st.shard_iterators = [(p, cp), (q, cq)]) :
    run_shard pull classify now st (p, cp)
      = { st with log := st.log ++ [LogEntry.fetchError p] }
  ∧ (poll_cycle pull classify now st).total_reviews = st.total_reviews + 1
  ∧ (poll_cycle pull classify now st).shard_iterators = [(p, cp), (q, c2)]
  ∧ (∀ (pulls : Nat → String → String → PullResult) (nows : Nat → Int)
       (fuel i : Nat) (st' : ConsState),
       (poll_cycle (pulls i) classify (nows i) st').shard_iterators ≠ [] →
       poll_loop pulls classify nows (fuel + 1) i st'
         = poll_loop pulls classify nows fuel (i + 1)
             (poll_cycle (pulls i) classify (nows i) st')) := by
  have hmap : ([(p, cp), (q, cq)].map (fun e => if e.1 = q then (e.1, c2) else e))
      = [(p, cp), (q, c2)] := by
    simp [hpq]
  have hcycle : poll_cycle pull classify now st
      = process_records classify now
          { st with
            shard_iterators := [(p, cp), (q, c2)],
            records_found := true,
            consecutive_empty_responses := 0,
            log := (st.log ++ [LogEntry.fetchError p])
              ++ [LogEntry.receivedRecords q 1] } [r] := by
    simp only [poll_cycle, hiter, List.foldl_cons, List.foldl_nil]
    rw [run_shard_err pull classify now _ p cp hcp hp,
      run_shard_advance pull classify now _ q cq [r] c2 hcq hq
        (List.cons_ne_nil r [])]
    rw [hmap]
    simp only [process_records_records_found]
    rw [if_pos trivial]
    rfl
  refine ⟨?_, ?_, ?_, ?_⟩
  · rw [run_shard_err pull classify now st p cp hcp hp]
  · rw [hcycle, process_records_total]
    simp [hr]
  · rw [hcycle, process_records_shard_iterators]
  · intro pulls nows fuel i st' h
    have hne : (poll_cycle (pulls i) classify (nows i) st').shard_iterators.isEmpty
        = false := List.isEmpty_eq_false.mpr h
    simp only [poll_loop, hne, Bool.false_eq_true, if_false]

/-- C6 witness: with two shards where the first pull errors and the second
returns one valid record, the cycle ingests that record. -/
theorem transient_error_retries_same_cursor_witness :
    (poll_cycle
        (fun s _ => if s = ("p1") then PullResult.err
          else PullResult.ok [Payload.obj (some ("good stuff"))] (some ("c2")))
        (fun _ => ((neutral_label), 0)) 0
        { shard_iterators := [(("p1"), ("i1")), (("p2"), ("i2"))] }).total_reviews
      = 0 + 1
  ∧ (poll_cycle
        (fun s _ => if s = ("p1") then PullResult.err
          else PullResult.ok [Payload.obj (some ("good stuff"))] (some ("c2")))
        (fun _ => ((neutral_label), 0)) 0
        { shard_iterators := [(("p1"), ("i1")), (("p2"), ("i2"))] }).shard_iterators
      = [(("p1"), ("i1")), (("p2"), ("c2"))] :=
  ⟨(transient_error_retries_same_cursor
      (fun s _ => if s = ("p1") then PullResult.err
        else PullResult.ok [Payload.obj (some ("good stuff"))] (some ("c2")))
      (fun _ => ((neutral_label), 0)) 0
      { shard_iterators := [(("p1"), ("i1")), (("p2"), ("i2"))] }
      ("p1") ("p2") ("i1") ("i2") ("c2") (Payload.obj (some ("good stuff")))
      (by decide) (by decide) (by decide) (by decide) (by decide) (by decide)
      rfl).2.1,
   (transient_error_retries_same_cursor
      (fun s _ => if s = ("p1") then PullResult.err
        else PullResult.ok [Payload.obj (some ("good stuff"))] (some ("c2")))
      (fun _ => ((neutral_label), 0)) 0
      { shard_iterators := [(("p1"), ("i1")), (("p2"), ("i2"))] }
      ("p1") ("p2") ("i1") ("i2") ("c2") (Payload.obj (some ("good stuff")))
      (by decide) (by decide) (by decide) (by decide) (by decide) (by decide)
      rfl).2.2.1⟩

/-- C1 (amended): every record of a successfully pulled batch that arrives
with a next iterator is forwarded, in order, to the per-record processing
stage (so each valid record of the batch is counted and ingested); but a
batch arriving together with the exhaustion signal (no next iterator) is
discarded whole — the store, the reviews list and the total count are
untouched. -/
theorem pulled_batch_forwarding (pull : String → String → PullResult)
    (classify : String → String × ℚ) (now : Int) (st : ConsState)
    (sid c : String) (hc : c ≠ empty_text) :
    (∀ (records : List Payload) (c2 : String),
       pull sid c = PullResult.ok records (some c2) → records ≠ [] →
       run_shard pull classify now st (sid, c)
         = process_records classify now
             { st with
               shard_iterators := st.shard_iterators.map
                 (fun e => if e.1 = sid then (e.1, c2) else e),
               records_found := true,
               consecutive_empty_responses := 0,
               log := st.log ++ [LogEntry.receivedRecords sid records.length] }
             records
       ∧ (run_shard pull classify now st (sid, c)).total_reviews
           = st.total_reviews + (records.filter isValidRecord).length)
  ∧ (∀ records : List Payload,
       pull sid c = PullResult.ok records none →
       (run_shard pull classify now st (sid, c)).total_reviews = st.total_reviews
     ∧ (run_shard pull classify now st (sid, c)).analyzer = st.analyzer
     ∧ (run_shard pull classify now st (sid, c)).reviews = st.reviews) := by
  constructor
  · intro records c2 hp hne
    refine ⟨run_shard_advance pull classify now st sid c records c2 hc hp hne, ?_⟩
    rw [run_shard_advance pull classify now st sid c records c2 hc hp hne,
      process_records_total]
  · intro records hp
    rw [run_shard_exhaust pull classify now st sid c records hc hp]
    exact ⟨rfl, rfl, rfl⟩

/-- C1 witness: a one-record batch with a next iterator bumps the total by
one. -/
theorem pulled_batch_forwarding_witness :
    (run_shard (fun _ _ => PullResult.ok [Payload.obj (some ("great"))] (some ("c2")))
        (fun _ => ((neutral_label), 0)) 0
        { shard_iterators := [(("s1"), ("i1"))] } (("s1"), ("i1"))).total_reviews
      = 0 + 1 :=
  ((pulled_batch_forwarding
      (fun _ _ => PullResult.ok [Payload.obj (some ("great"))] (some ("c2")))
      (fun _ => ((neutral_label), 0)) 0
      { shard_iterators := [(("s1"), ("i1"))] } ("s1") ("i1") (by decide)).1
    [Payload.obj (some ("great"))] ("c2") rfl (by decide)).2

/-- C1 counterexample: a successfully pulled batch holding one valid record
but no next iterator is dropped whole — after the cycle nothing was
ingested or counted, refuting that such a batch's records are forwarded. -/
theorem exhaustion_batch_dropped_cex :
    (poll_cycle (fun _ _ => PullResult.ok [Payload.obj (some ("great service"))] none)
        (fun _ => ((neutral_label), 0)) 0
        { shard_iterators := [(("s1"), ("i1"))] }).total_reviews = 0
  ∧ (poll_cycle (fun _ _ => PullResult.ok [Payload.obj (some ("great service"))] none)
        (fun _ => ((neutral_label), 0)) 0
        { shard_iterators := [(("s1"), ("i1"))] }).analyzer = []
  ∧ (poll_cycle (fun _ _ => PullResult.ok [Payload.obj (some ("great service"))] none)
        (fun _ => ((neutral_label), 0)) 0
        { shard_iterators := [(("s1"), ("i1"))] }).reviews = []
  ∧ ¬ ((poll_cycle (fun _ _ => PullResult.ok [Payload.obj (some ("great service"))] none)
        (fun _ => ((neutral_label), 0)) 0
        { shard_iterators := [(("s1"), ("i1"))] }).total_reviews = 1) := by
  refine ⟨?_, ?_, ?_, ?_⟩ <;> decide

/-- C7 (amended): a malformed-JSON record and a record whose object lacks
the `text` field are both dropped: the analyzer store, the reviews list
and the total count are unchanged, processing continues with the rest of
the batch, and the drop is logged — with exactly one drop log entry for a
missing `text` field but two for malformed JSON (the decode error and the
raw-data echo). -/
theorem bad_record_dropped_and_logged (classify : String → String × ℚ)
    (now : Int) (st : ConsState) :
    (∀ (r : Payload) (rs : List Payload),
       process_records classify now st (r :: rs)
         = process_records classify now (process_record classify now st r) rs)
  ∧ (process_record classify now st Payload.malformed).analyzer = st.analyzer
  ∧ (process_record classify now st Payload.malformed).reviews = st.reviews
  ∧ (process_record classify now st Payload.malformed).total_reviews
      = st.total_reviews
  ∧ (process_record classify now st Payload.malformed).log
      = st.log ++ [LogEntry.rawData, LogEntry.jsonDecodeError,
          LogEntry.jsonRawDataWas]
  ∧ (process_record classify now st (Payload.obj none)).analyzer = st.analyzer
  ∧ (process_record classify now st (Payload.obj none)).reviews = st.reviews
  ∧ (process_record classify now st (Payload.obj none)).total_reviews
      = st.total_reviews
  ∧ (process_record classify now st (Payload.obj none)).log
      = st.log ++ [LogEntry.rawData, LogEntry.parsedJson, LogEntry.noTextField]
  ∧ (((process_record classify now st Payload.malformed).log.drop
        st.log.length).countP isDropLog) = 2
  ∧ (((process_record classify now st (Payload.obj none)).log.drop
        st.log.length).countP isDropLog) = 1 := by
  refine ⟨fun r rs => process_records_cons classify now st r rs,
    rfl, rfl, rfl, ?_, ?_, ?_, ?_, ?_, ?_, ?_⟩
  · simp [process_record]
  · simp [process_record]
  · simp [process_record]
  · simp [process_record]
  · simp [process_record]
  · simp [process_record, List.drop_left, isDropLog]
  · simp [process_record, List.drop_left, isDropLog]

/-- C7 counterexample: a malformed-JSON record produces two drop log
entries (the decode error and the raw-data echo), not exactly one. -/
theorem malformed_json_two_drop_logs_cex :
    ¬ (((process_record (fun _ => ((neutral_label), 0)) 0 ({} : ConsState)
          Payload.malformed).log.countP isDropLog) = 1)
  ∧ ((process_record (fun _ => ((neutral_label), 0)) 0 ({} : ConsState)
          Payload.malformed).log.countP isDropLog) = 2 := by
  refine ⟨?_, ?_⟩ <;> decide

/-- C10: a parsed record whose `text` field holds the empty string is
processed exactly like a record lacking the field: the resulting state is
identical, nothing is ingested or counted, and the missing-`text` branch's
log entry is emitted. -/
theorem empty_text_field_like_missing (classify : String → String × ℚ)
    (now : Int) (st : ConsState) :
    process_record classify now st (Payload.obj (some empty_text))
      = process_record classify now st (Payload.obj none)
  ∧ (process_record classify now st (Payload.obj (some empty_text))).analyzer
      = st.analyzer
  ∧ (process_record classify now st (Payload.obj (some empty_text))).reviews
      = st.reviews
  ∧ (process_record classify now st (Payload.obj (some empty_text))).total_reviews
      = st.total_reviews
  ∧ (process_record classify now st (Payload.obj (some empty_text))).log
      = st.log ++ [LogEntry.rawData, LogEntry.parsedJson, LogEntry.noTextField] := by
  refine ⟨rfl, ?_, ?_, ?_, ?_⟩ <;> simp [process_record]

end ReviewStream
